import Mathlib

/-!
# Verification of the solana-tools-api core (src/server.ts)

This file gives a shallow embedding, in Lean 4, of the algorithmic core of
`src/server.ts`: the heuristic token-safety scorer of the
`/api/token-safety-check` handler, the holder aggregation
(`aggregateHoldersForMint`, primary full-scan path and largest-accounts
fallback path), the concentration percentages (`pctOfSupply`), and the whale
filter of `/api/whale-tracker`.  The sibling snapshot
`src/unnamed/part_000` differs in the safety-check handler (its DexScreener
fetch is best-effort); that variant is embedded separately as
`tokenSafetyCheckBestEffort`.

Numeric model: JavaScript numbers are modelled as exact rationals (ℚ).  All
amounts appearing in the verified claims are small integers scaled by powers
of ten, for which JS double arithmetic is exact, so the rational model agrees
with the source on every input considered here.  `amountRaw` (a decimal
string in the source, parsed with `Number(...)`) is modelled as a natural
number; the `NaN` path for an unparsable string is not reachable in this
model and is noted where relevant.  The human-readable `reasons` strings are
presentation-only and are not modelled.

JavaScript `Map` preserves insertion order and `Array.prototype.sort` is a
stable sort (guaranteed since ES2019); the embedding models the map as an
insertion-ordered association list and the sort as `List.mergeSort`, which is
stable.
-/

namespace SolanaTools

/-! ## Substring test used by isScanAbortedError (src/server.ts lines 30-36) -/

/-- `headMatch hay pat` is true when `pat` is an initial segment of `hay`. -/
def headMatch : List Char → List Char → Bool
  | _, [] => true
  | [], _ :: _ => false
  | a :: as, b :: bs => a == b && headMatch as bs

/-- `hasSub hay pat` is true when `pat` occurs contiguously inside `hay`;
this models JavaScript `String.prototype.includes`. -/
def hasSub : List Char → List Char → Bool
  | [], pat => pat.isEmpty
  | a :: as, pat => headMatch (a :: as) pat || hasSub as pat

/-- Embeds `isScanAbortedError` (src/server.ts lines 30-36): the error
message, lowercased, contains "scan aborted" or
"accumulated scan results exceeded the limit". -/
def isScanAbortedError (msg : String) : Bool :=
  hasSub (msg.toList.map Char.toLower) "scan aborted".toList ||
  hasSub (msg.toList.map Char.toLower) "accumulated scan results exceeded the limit".toList

/-! ## Safety scorer (src/server.ts lines 299-446, /api/token-safety-check) -/

/-- The fields of a DexScreener pair used by the safety computation
(src/server.ts lines 59-72; fields not read by the verified code paths are
omitted). -/
structure DexPair where
  chainId : String
  dexId : String
  pairAddress : String
  liquidityUsd : Option ℚ
deriving DecidableEq, Repr

/-- The three risk levels of the safety check. -/
inductive RiskLevel
  | low
  | medium
  | high
deriving DecidableEq, Repr

/-- The `safety` object of the /api/token-safety-check response
(src/server.ts lines 427-435), minus the presentation-only `reasons`. -/
structure SafetyAssessment where
  immutableMint : Bool
  canFreeze : Bool
  hasRaydiumPool : Bool
  lowLiquidity : Bool
  veryLowLiquidity : Bool
  riskLevel : RiskLevel
deriving DecidableEq, Repr

/-- Embeds the qualifying-pool filter (src/server.ts lines 342-344):
`pairs.filter(p => p.chainId === "solana" && p.dexId.toLowerCase() === "raydium")`. -/
def raydiumFilter (pairs : List DexPair) : List DexPair :=
  pairs.filter (fun p => p.chainId == "solana" && p.dexId.toLower == "raydium")

/-- Embeds the liquidity total (src/server.ts lines 345-348):
`raydiumPairs.reduce((acc, p) => acc + (p.liquidity?.usd || 0), 0)`. -/
def totalLiquidityUsd (pools : List DexPair) : ℚ :=
  pools.foldl (fun acc p => acc + p.liquidityUsd.getD 0) 0

/-- Embeds the safety flags and riskLevel computation of
/api/token-safety-check (src/server.ts lines 358-402), taking the mint
authority fields and the already-filtered qualifying (Raydium) pools. -/
def computeSafety (mintAuthority freezeAuthority : Option String)
    (raydiumPairs : List DexPair) : SafetyAssessment :=
  let immutableMint : Bool := mintAuthority.isNone
  let canFreeze : Bool := freezeAuthority.isSome
  let hasRaydiumPool : Bool := !raydiumPairs.isEmpty
  let liq : ℚ := totalLiquidityUsd raydiumPairs
  let veryLowLiquidity : Bool := decide (liq < 200)
  let lowLiquidity : Bool := if liq < 200 then true else decide (liq < 1000)
  let riskLevel : RiskLevel :=
    if !hasRaydiumPool || veryLowLiquidity || !immutableMint then .high
    else if lowLiquidity || canFreeze then .medium
    else .low
  { immutableMint, canFreeze, hasRaydiumPool, lowLiquidity, veryLowLiquidity,
    riskLevel }

/-- The SafetyScorer risk rule exactly as the specification words it
(spec section 4.4): first-match precedence over the rule table, with
thresholds veryLowLiquidity = total < 200 and lowLiquidity = total < 1000. -/
def specRiskLevel (mintAuthority freezeAuthority : Option String)
    (qualifyingPools : List DexPair) : RiskLevel :=
  let liq : ℚ := totalLiquidityUsd qualifyingPools
  if qualifyingPools.isEmpty ∨ liq < 200 ∨ mintAuthority.isSome then .high
  else if liq < 1000 ∨ freezeAuthority.isSome then .medium
  else .low

/-- On-chain mint metadata as read by the handlers (src/server.ts
lines 330-339). -/
structure MintInfo where
  decimals : Nat
  supplyRaw : Nat
  mintAuthority : Option String
  freezeAuthority : Option String
  isInitialized : Bool
deriving DecidableEq, Repr

/-- Embeds the /api/token-safety-check handler of src/server.ts after a
successful mint-metadata lookup: `fetchDexPairsForMint` is awaited with no
inner guard (line 341), so a market-data failure escapes to the outer catch
(lines 439-445) and the request fails with HTTP 500 — no safety object is
produced. -/
def tokenSafetyCheck (meta : MintInfo)
    (dexResult : Except String (List DexPair)) : Except String SafetyAssessment :=
  match dexResult with
  | .error e => .error e
  | .ok pairs =>
      .ok (computeSafety meta.mintAuthority meta.freezeAuthority
            (raydiumFilter pairs))

/-- Embeds the /api/token-safety-check handler of the sibling snapshot
src/unnamed/part_000 (lines 355-381): the DexScreener fetch is wrapped in its
own try/catch, and on failure `pairs` and `raydiumPairs` stay empty while the
assessment is still produced. -/
def tokenSafetyCheckBestEffort (meta : MintInfo)
    (dexResult : Except String (List DexPair)) : SafetyAssessment :=
  match dexResult with
  | .error _ =>
      computeSafety meta.mintAuthority meta.freezeAuthority (raydiumFilter [])
  | .ok pairs =>
      computeSafety meta.mintAuthority meta.freezeAuthority (raydiumFilter pairs)

/-! ## Holder aggregation (src/server.ts lines 452-562, aggregateHoldersForMint) -/

/-- One aggregated holder (src/server.ts lines 452-455). -/
structure HolderAgg where
  owner : String
  uiAmount : ℚ
deriving DecidableEq, Repr

/-- A parsed ledger record returned by the primary full scan.  `tokenAccount`
corresponds to `program === "spl-token" && parsed.type === "account"`
(src/server.ts line 485); `otherData` is any other account shape, which the
loop skips. -/
inductive AccountData
  | tokenAccount (owner : String) (decimals : Nat) (amountRaw : Nat)
  | otherData
deriving DecidableEq, Repr

/-- `Number(amountRaw) / Math.pow(10, decimals)` (src/server.ts line 498),
with the raw amount modelled as a natural number. -/
def normAmount (amountRaw : Nat) (decimals : Nat) : ℚ :=
  (amountRaw : ℚ) / 10 ^ decimals

/-- Embeds the per-owner accumulation step on `holdersMap`
(src/server.ts lines 505-510): update the amount of the existing entry when the
owner is present, otherwise append a fresh entry (JS `Map` preserves
insertion order). -/
def accumOwner (m : List HolderAgg) (owner : String) (amt : ℚ) : List HolderAgg :=
  if m.any (fun h => h.owner == owner) then
    m.map (fun h => if h.owner == owner then { h with uiAmount := h.uiAmount + amt } else h)
  else
    m ++ [{ owner := owner, uiAmount := amt }]

/-- The comparator of `(a, b) => b.uiAmount - a.uiAmount` (src/server.ts
line 514): descending by amount. -/
def holderLE (a b : HolderAgg) : Bool :=
  decide (b.uiAmount ≤ a.uiAmount)

/-- `Array.from(holdersMap.values()).sort((a, b) => b.uiAmount - a.uiAmount)`
(src/server.ts lines 513-515); JS sort is stable, modelled by `mergeSort`. -/
def sortHolders (l : List HolderAgg) : List HolderAgg :=
  l.mergeSort holderLE

/-- One iteration of the primary-path loop body (src/server.ts lines
483-511): skip non-spl-token records, normalize, skip zero amounts,
accumulate by owner. -/
def primaryStep (m : List HolderAgg) (d : AccountData) : List HolderAgg :=
  match d with
  | .otherData => m
  | .tokenAccount owner decimals amountRaw =>
      let uiAmount := normAmount amountRaw decimals
      if uiAmount == 0 then m else accumOwner m owner uiAmount

/-- The insertion-ordered holders map built by the primary-path loop
(src/server.ts lines 481-511). -/
def primaryMap (accounts : List AccountData) : List HolderAgg :=
  accounts.foldl primaryStep []

/-- The primary-path holder list: the accumulated map, sorted descending
(src/server.ts lines 513-515). -/
def primaryHolders (accounts : List AccountData) : List HolderAgg :=
  sortHolders (primaryMap accounts)

/-- One entry of `getTokenLargestAccounts(...).value` (src/server.ts
lines 524-531): an account address plus its `uiAmount`, which may be absent
(`v.uiAmount || 0`). -/
structure LargestEntry where
  address : String
  uiAmount : Option ℚ
deriving DecidableEq, Repr

/-- The part of a `getParsedAccountInfo` result read by the fallback loop
(src/server.ts lines 543-546): the owning program tag and the parsed owner. -/
structure ParsedProgramData where
  program : String
  owner : String
deriving DecidableEq, Repr

/-- One iteration of the fallback `values.forEach` body (src/server.ts lines
538-554): skip zero/missing amounts, skip entries whose lookup produced no
account data or a non-spl-token account, accumulate the rest by owner. -/
def fallbackStep (m : List HolderAgg) (v : LargestEntry)
    (info : Option ParsedProgramData) : List HolderAgg :=
  let uiAmount := v.uiAmount.getD 0
  if uiAmount == 0 then m
  else
    match info with
    | none => m
    | some pd => if pd.program != "spl-token" then m else accumOwner m pd.owner uiAmount

/-- The insertion-ordered holders map built by the fallback loop
(src/server.ts lines 536-554); `values` is paired positionally with the
lookup results, as `parsedInfos[idx]` is in the source. -/
def fallbackMap (values : List LargestEntry)
    (infos : List (Option ParsedProgramData)) : List HolderAgg :=
  (values.zip infos).foldl (fun m vi => fallbackStep m vi.1 vi.2) []

/-- The fallback-path holder list, sorted descending (src/server.ts lines
556-558). -/
def fallbackHolders (values : List LargestEntry)
    (infos : List (Option ParsedProgramData)) : List HolderAgg :=
  sortHolders (fallbackMap values infos)

/-- Embeds `Promise.all(accountPubkeys.map(pk => connection.getParsedAccountInfo(pk, ...)))`
(src/server.ts lines 532-534): all owner-resolution lookups must succeed; the
first failure fails the whole batch and no partial list survives. -/
def lookupAll (lookup : String → Except String (Option ParsedProgramData)) :
    List String → Except String (List (Option ParsedProgramData))
  | [] => .ok []
  | pk :: rest =>
      match lookup pk with
      | .error e => .error e
      | .ok info =>
          match lookupAll lookup rest with
          | .error e => .error e
          | .ok infos => .ok (info :: infos)

/-- The aggregation result (src/server.ts lines 459-462). -/
structure AggResult where
  holders : List HolderAgg
  usedFallback : Bool
deriving DecidableEq, Repr

/-- The collaborator responses a single `aggregateHoldersForMint` call can
observe: the outcome of the primary `getParsedProgramAccounts` scan, the
outcome of `getTokenLargestAccounts` (its `value || []` list), and the
per-address `getParsedAccountInfo` lookups (`none` models a response whose
`value?.data` is absent). -/
structure ScanEnv where
  scanResult : Except String (List AccountData)
  largestResult : Except String (List LargestEntry)
  lookup : String → Except String (Option ParsedProgramData)

/-- The fallback branch of `aggregateHoldersForMint` (src/server.ts lines
523-561): query the bounded largest-accounts list, short-circuit on an empty
list, resolve every owner, aggregate, and flag `usedFallback := true`.  Note
it reads nothing but the bounded largest-accounts query and the per-account
lookups. -/
def fallbackAggregate (largestResult : Except String (List LargestEntry))
    (lookup : String → Except String (Option ParsedProgramData)) :
    Except String AggResult :=
  match largestResult with
  | .error e => .error e
  | .ok values =>
      if values.isEmpty then .ok { holders := [], usedFallback := true }
      else
        match lookupAll lookup (values.map (·.address)) with
        | .error e => .error e
        | .ok infos => .ok { holders := fallbackHolders values infos, usedFallback := true }

/-- Embeds `aggregateHoldersForMint` (src/server.ts lines 457-562): try the
full scan; on success aggregate it with `usedFallback := false`; on failure
re-raise unless `isScanAbortedError`, in which case run the fallback
branch. -/
def aggregateHoldersForMint (env : ScanEnv) : Except String AggResult :=
  match env.scanResult with
  | .ok tokenAccounts =>
      .ok { holders := primaryHolders tokenAccounts, usedFallback := false }
  | .error e =>
      if !isScanAbortedError e then .error e
      else fallbackAggregate env.largestResult env.lookup

/-! ## Concentration and whale filter (src/server.ts lines 628-639, 698-746) -/

/-- Embeds `pctOfSupply` (src/server.ts lines 628-633 and 741-746): 0 when
supply is not strictly positive, otherwise the sum of the first `count`
holder amounts divided by supply, times 100. -/
def pctOfSupply (supply : ℚ) (holders : List HolderAgg) (count : Nat) : ℚ :=
  if supply ≤ 0 then 0
  else ((holders.take count).foldl (fun acc h => acc + h.uiAmount) 0) / supply * 100

/-- The `concentration` object (src/server.ts lines 635-639 and 748-752). -/
structure Concentration where
  top1 : ℚ
  top5 : ℚ
  top10 : ℚ
deriving DecidableEq, Repr

/-- `concentration = { top1: pctOfSupply(1), top5: pctOfSupply(5), top10: pctOfSupply(10) }`. -/
def concentrationOf (supply : ℚ) (holders : List HolderAgg) : Concentration :=
  { top1 := pctOfSupply supply holders 1
    top5 := pctOfSupply supply holders 5
    top10 := pctOfSupply supply holders 10 }

/-- Embeds the whale selection of /api/whale-tracker (src/server.ts lines
732-739): keep holders whose share of supply is at least `minPct` (never when
supply ≤ 0), sort descending, truncate to `limit`. -/
def whaleFilter (supply : ℚ) (holders : List HolderAgg) (minPct : ℚ)
    (limit : Nat) : List HolderAgg :=
  (sortHolders (holders.filter (fun h =>
    if supply ≤ 0 then false
    else decide (minPct ≤ h.uiAmount / supply * 100)))).take limit

/-- The whale selection as the specification words it (spec section 4.3):
the subset of holders whose individual share of supply is ≥ the threshold,
sorted descending by amount, truncated to the limit. -/
def whalesSpec (supply : ℚ) (holders : List HolderAgg) (minPct : ℚ)
    (limit : Nat) : List HolderAgg :=
  (sortHolders (holders.filter (fun h =>
    decide (minPct ≤ h.uiAmount / supply * 100)))).take limit

/-- Default resolution of the `minPct` query parameter
(src/server.ts line 698): absent means 1. -/
def whaleMinPctParam (q : Option ℚ) : ℚ := q.getD 1

/-- Default resolution of the `limit` query parameter
(src/server.ts line 699): absent means 20. -/
def whaleLimitParam (q : Option Nat) : Nat := q.getD 20

/-! ## Concrete collaborator environments used in witness statements -/

/-- A concrete owner-resolution table: address "acc1" resolves to an
spl-token account owned by "ownerA"; anything else has no account data. -/
def sampleLookup : String → Except String (Option ParsedProgramData) :=
  fun a =>
    if a = "acc1" then Except.ok (some { program := "spl-token", owner := "ownerA" })
    else Except.ok none

/-- An owner-resolution table whose every lookup fails. -/
def sampleLookupFail : String → Except String (Option ParsedProgramData) :=
  fun _ => Except.error "lookup failed"

/-- A run whose primary full scan succeeds. -/
def sampleEnvPrimary : ScanEnv :=
  { scanResult := Except.ok [AccountData.tokenAccount "ownerA" 0 5]
    largestResult := Except.ok []
    lookup := sampleLookup }

/-- A run whose primary scan is rejected with a resource-limit error and
whose fallback succeeds. -/
def sampleEnvFallback : ScanEnv :=
  { scanResult := Except.error "Scan aborted: too many results"
    largestResult := Except.ok [{ address := "acc1", uiAmount := some 5 }]
    lookup := sampleLookup }

/-- A run whose primary scan fails with a non-resource-limit transport
error. -/
def sampleEnvTransport : ScanEnv :=
  { scanResult := Except.error "connection reset"
    largestResult := Except.ok []
    lookup := sampleLookup }

/-- A run whose primary scan is rejected with a resource-limit error and
whose fallback owner-resolution lookups all fail. -/
def sampleEnvLookupFail : ScanEnv :=
  { scanResult := Except.error "Scan aborted: too many results"
    largestResult := Except.ok [{ address := "acc1", uiAmount := some 5 }]
    lookup := sampleLookupFail }

/-! ## Observation helpers used only in claim statements -/

/-- The amount recorded for `o` in an association list of holder aggregates
(first match; 0 when absent). -/
def mapAmount : List HolderAgg → String → ℚ
  | [], _ => 0
  | h :: t, o => if h.owner = o then h.uiAmount else mapAmount t o

/-- The total normalized amount owned by `o` across a raw account snapshot:
each spl-token account record contributes `amountRaw / 10^decimals`. -/
def ownerTotal (accounts : List AccountData) (o : String) : ℚ :=
  (accounts.map (fun d =>
    match d with
    | .tokenAccount ow dec raw => if ow = o then normAmount raw dec else 0
    | .otherData => 0)).sum

/-- The sum of all aggregated holder amounts. -/
def holdersTotal (l : List HolderAgg) : ℚ :=
  (l.map (fun h => h.uiAmount)).sum

/-! ## Helper lemmas about the aggregation primitives -/

theorem mapAmount_map_update (m : List HolderAgg) (ow : String) (amt : ℚ) (o : String) :
    mapAmount (m.map (fun h => if h.owner == ow then { h with uiAmount := h.uiAmount + amt } else h)) o
      = mapAmount m o + (if ow = o ∧ (∃ h ∈ m, h.owner = o) then amt else 0) := by
  induction m with
  | nil => simp [mapAmount]
  | cons x t ih =>
    obtain ⟨w, a⟩ := x
    by_cases hwo : w = o
    · by_cases hww : w = ow
      · subst hwo; subst hww
        simp [mapAmount, ih]
      · subst hwo
        have hcond : ¬ (ow = w ∧ ∃ h ∈ ({ owner := w, uiAmount := a } : HolderAgg) :: t, h.owner = w) := by
          rintro ⟨rfl, -⟩; exact hww rfl
        simp only [List.map_cons]
        rw [if_neg (by simpa using hww), if_neg hcond]
        simp [mapAmount]
    · have hiff : ∀ z : String, ((z = o ∧ ∃ h ∈ ({ owner := w, uiAmount := a } : HolderAgg) :: t, h.owner = o)
            ↔ (z = o ∧ ∃ h ∈ t, h.owner = o)) := by
        intro z
        constructor
        · rintro ⟨rfl, y, hm, hh⟩
          rcases List.mem_cons.mp hm with rfl | hmt
          · exact absurd (by simpa using hh) hwo
          · exact ⟨rfl, y, hmt, hh⟩
        · rintro ⟨rfl, y, hm, hh⟩
          exact ⟨rfl, y, List.mem_cons_of_mem _ hm, hh⟩
      by_cases hww : w = ow
      · subst hww
        simp only [List.map_cons]
        rw [if_pos (by simp)]
        simp only [mapAmount, if_neg hwo, ih]
        rw [if_congr (hiff w) rfl rfl]
      · simp only [List.map_cons]
        rw [if_neg (by simpa using hww)]
        simp only [mapAmount, if_neg hwo, ih]
        rw [if_congr (hiff ow) rfl rfl]

theorem mapAmount_append_new (m : List HolderAgg) (ow : String) (amt : ℚ) (o : String) :
    mapAmount (m ++ [{ owner := ow, uiAmount := amt }]) o
      = mapAmount m o + (if ow = o ∧ (¬ ∃ h ∈ m, h.owner = o) then amt else 0) := by
  induction m with
  | nil => by_cases hoo : ow = o <;> simp [mapAmount, hoo]
  | cons x t ih =>
    obtain ⟨w, a⟩ := x
    by_cases hwo : w = o
    · have hcond : ¬ (ow = o ∧ ¬ ∃ h ∈ ({ owner := w, uiAmount := a } : HolderAgg) :: t, h.owner = o) := by
        rintro ⟨rfl, hne⟩
        exact hne ⟨{ owner := w, uiAmount := a }, List.mem_cons_self _ _, hwo⟩
      rw [List.cons_append, if_neg hcond]
      simp [mapAmount, hwo]
    · have hiff : ((ow = o ∧ ¬ ∃ h ∈ ({ owner := w, uiAmount := a } : HolderAgg) :: t, h.owner = o)
            ↔ (ow = o ∧ ¬ ∃ h ∈ t, h.owner = o)) := by
        constructor
        · rintro ⟨rfl, hne⟩
          exact ⟨rfl, fun ⟨y, hm, hh⟩ => hne ⟨y, List.mem_cons_of_mem _ hm, hh⟩⟩
        · rintro ⟨rfl, hne⟩
          refine ⟨rfl, fun ⟨y, hm, hh⟩ => ?_⟩
          rcases List.mem_cons.mp hm with rfl | hmt
          · exact absurd (by simpa using hh) hwo
          · exact hne ⟨y, hmt, hh⟩
      rw [List.cons_append]
      simp only [mapAmount, if_neg hwo, List.append_eq]
      rw [ih, if_congr hiff rfl rfl]

theorem mapAmount_accumOwner (m : List HolderAgg) (ow : String) (amt : ℚ) (o : String) :
    mapAmount (accumOwner m ow amt) o = mapAmount m o + (if ow = o then amt else 0) := by
  unfold accumOwner
  by_cases hany : (m.any fun h => h.owner == ow) = true
  · rw [if_pos hany, mapAmount_map_update]
    have hex : ∃ h ∈ m, h.owner = ow := by
      simpa [List.any_eq_true] using hany
    by_cases hoo : ow = o
    · subst hoo; simp [hex]
    · simp [hoo]
  · rw [if_neg hany, mapAmount_append_new]
    have hnex : ¬ ∃ h ∈ m, h.owner = ow := by
      simpa [List.any_eq_true] using hany
    by_cases hoo : ow = o
    · subst hoo; simp [hnex]
    · simp [hoo]

theorem keys_accumOwner (m : List HolderAgg) (ow : String) (amt : ℚ)
    (h : (m.map (fun h => h.owner)).Nodup) :
    ((accumOwner m ow amt).map (fun h => h.owner)).Nodup := by
  unfold accumOwner
  by_cases hany : (m.any fun h => h.owner == ow) = true
  · rw [if_pos hany, List.map_map]
    have : (m.map (fun h =>
        ((if h.owner == ow then { h with uiAmount := h.uiAmount + amt } else h) : HolderAgg).owner))
        = m.map (fun h => h.owner) := by
      apply List.map_congr_left
      intro x _
      by_cases hx : x.owner == ow <;> simp [hx]
    rw [show ((fun h => h.owner) ∘ fun h =>
        if h.owner == ow then { h with uiAmount := h.uiAmount + amt } else h)
        = fun h : HolderAgg =>
          ((if h.owner == ow then { h with uiAmount := h.uiAmount + amt } else h) : HolderAgg).owner
      from rfl, this]
    exact h
  · rw [if_neg hany, List.map_append]
    have hnm : ow ∉ m.map (fun h => h.owner) := by
      intro hmem
      rcases List.mem_map.mp hmem with ⟨y, hy, hyo⟩
      exact hany (List.any_eq_true.mpr ⟨y, hy, by simp [hyo]⟩)
    simp [List.nodup_append, h, hnm]

theorem pos_accumOwner (m : List HolderAgg) (ow : String) (amt : ℚ)
    (hm : ∀ h ∈ m, 0 < h.uiAmount) (ha : 0 < amt) :
    ∀ h ∈ accumOwner m ow amt, 0 < h.uiAmount := by
  unfold accumOwner
  by_cases hany : (m.any fun h => h.owner == ow) = true
  · rw [if_pos hany]
    intro h hh
    rcases List.mem_map.mp hh with ⟨y, hy, rfl⟩
    by_cases hx : y.owner == ow
    · simpa [hx] using add_pos (hm y hy) ha
    · simpa [hx] using hm y hy
  · rw [if_neg hany]
    intro h hh
    rcases List.mem_append.mp hh with h1 | h2
    · exact hm h h1
    · simp only [List.mem_singleton] at h2
      subst h2
      exact ha

theorem holderLE_trans : ∀ (a b c : HolderAgg), holderLE a b → holderLE b c → holderLE a c := by
  intro a b c hab hbc
  simp only [holderLE, decide_eq_true_eq] at *
  exact le_trans hbc hab

theorem holderLE_total : ∀ (a b : HolderAgg), holderLE a b || holderLE b a := by
  intro a b
  simp only [holderLE, Bool.or_eq_true, decide_eq_true_eq]
  exact le_total _ _

theorem sortHolders_perm (l : List HolderAgg) : List.Perm (sortHolders l) l :=
  List.mergeSort_perm l holderLE

theorem sortHolders_sorted (l : List HolderAgg) :
    (sortHolders l).Pairwise (fun a b => b.uiAmount ≤ a.uiAmount) := by
  have := List.sorted_mergeSort holderLE_trans holderLE_total l
  exact this.imp (fun h => by simpa [holderLE] using h)

theorem sortHolders_stable (l : List HolderAgg) (a b : HolderAgg)
    (hab : b.uiAmount ≤ a.uiAmount) (h : List.Sublist [a, b] l) :
    List.Sublist [a, b] (sortHolders l) :=
  List.pair_sublist_mergeSort holderLE_trans holderLE_total
    (by simpa [holderLE] using hab) h

theorem mapAmount_eq_keyedSum (l : List HolderAgg) (o : String)
    (h : (l.map (fun h => h.owner)).Nodup) :
    mapAmount l o = (l.map (fun h => if h.owner = o then h.uiAmount else 0)).sum := by
  induction l with
  | nil => simp [mapAmount]
  | cons x t ih =>
    rw [List.map_cons, List.nodup_cons] at h
    obtain ⟨hx, ht⟩ := h
    by_cases hxo : x.owner = o
    · have hz : ∀ y ∈ t.map (fun h => if h.owner = o then h.uiAmount else 0), y = 0 := by
        intro y hy
        rcases List.mem_map.mp hy with ⟨z, hz, rfl⟩
        have : z.owner ≠ o := by
          intro hzo
          exact hx (List.mem_map.mpr ⟨z, hz, by rw [hzo, hxo]⟩)
        simp [this]
      simp [mapAmount, hxo, List.sum_eq_zero hz]
    · simp [mapAmount, hxo, ih ht]

theorem mapAmount_sortHolders (l : List HolderAgg) (o : String)
    (h : (l.map (fun h => h.owner)).Nodup) :
    mapAmount (sortHolders l) o = mapAmount l o := by
  have hp := sortHolders_perm l
  have hkeys : ((sortHolders l).map (fun h => h.owner)).Nodup :=
    (List.Perm.nodup_iff (hp.map (fun h => h.owner))).mpr h
  rw [mapAmount_eq_keyedSum _ _ hkeys, mapAmount_eq_keyedSum _ _ h]
  exact List.Perm.sum_eq (hp.map (fun h => if h.owner = o then h.uiAmount else 0))

theorem keys_foldl {β : Type} (step : List HolderAgg → β → List HolderAgg)
    (l : List β)
    (hstep : ∀ m b, b ∈ l → (step m b = m ∨ ∃ ow amt, step m b = accumOwner m ow amt)) :
    ∀ m, (m.map (fun h => h.owner)).Nodup →
      (((l.foldl step m).map (fun h => h.owner)).Nodup) := by
  induction l with
  | nil => intro m hm; simpa using hm
  | cons b t ih =>
    intro m hm
    rw [List.foldl_cons]
    refine ih (fun m' b' hb' => hstep m' b' (List.mem_cons_of_mem _ hb')) (step m b) ?_
    rcases hstep m b (List.mem_cons_self _ _) with he | ⟨ow, amt, he⟩
    · rw [he]; exact hm
    · rw [he]; exact keys_accumOwner m ow amt hm

theorem pos_foldl {β : Type} (step : List HolderAgg → β → List HolderAgg)
    (l : List β)
    (hstep : ∀ m b, b ∈ l →
      (step m b = m ∨ ∃ ow amt, 0 < amt ∧ step m b = accumOwner m ow amt)) :
    ∀ m, (∀ h ∈ m, 0 < h.uiAmount) →
      ∀ h ∈ l.foldl step m, 0 < h.uiAmount := by
  induction l with
  | nil => intro m hm; simpa using hm
  | cons b t ih =>
    intro m hm
    rw [List.foldl_cons]
    refine ih (fun m' b' hb' => hstep m' b' (List.mem_cons_of_mem _ hb')) (step m b) ?_
    rcases hstep m b (List.mem_cons_self _ _) with he | ⟨ow, amt, hpos, he⟩
    · rw [he]; exact hm
    · rw [he]; exact pos_accumOwner m ow amt hm hpos

theorem normAmount_nonneg (raw dec : Nat) : 0 ≤ normAmount raw dec := by
  unfold normAmount
  positivity

theorem normAmount_pos_of_ne (raw dec : Nat) (h : ¬ normAmount raw dec == 0) :
    0 < normAmount raw dec := by
  rcases lt_or_eq_of_le (normAmount_nonneg raw dec) with hlt | heq
  · exact hlt
  · exact absurd (by simp [← heq]) h

theorem primaryStep_shape (m : List HolderAgg) (d : AccountData) :
    primaryStep m d = m ∨ ∃ ow amt, 0 < amt ∧ primaryStep m d = accumOwner m ow amt := by
  cases d with
  | otherData => exact Or.inl rfl
  | tokenAccount ow dec raw =>
    by_cases hz : normAmount raw dec == 0
    · exact Or.inl (by simp [primaryStep, hz])
    · exact Or.inr ⟨ow, normAmount raw dec, normAmount_pos_of_ne raw dec hz,
        by simp [primaryStep, hz]⟩

theorem keys_primaryMap (accounts : List AccountData) :
    ((primaryMap accounts).map (fun h => h.owner)).Nodup :=
  keys_foldl primaryStep accounts
    (fun m b _ => (primaryStep_shape m b).elim Or.inl
      (fun ⟨ow, amt, _, he⟩ => Or.inr ⟨ow, amt, he⟩)) [] (by simp)

theorem pos_primaryMap (accounts : List AccountData) :
    ∀ h ∈ primaryMap accounts, 0 < h.uiAmount :=
  pos_foldl primaryStep accounts (fun m b _ => primaryStep_shape m b) [] (by simp)

theorem mapAmount_primary_foldl (accounts : List AccountData) (m : List HolderAgg)
    (o : String) :
    mapAmount (accounts.foldl primaryStep m) o = mapAmount m o + ownerTotal accounts o := by
  induction accounts generalizing m with
  | nil => simp [ownerTotal]
  | cons d t ih =>
    rw [List.foldl_cons, ih]
    cases d with
    | otherData => simp [primaryStep, ownerTotal]
    | tokenAccount ow dec raw =>
      simp only [ownerTotal, List.map_cons, List.sum_cons]
      by_cases hz : normAmount raw dec == 0
      · have hz' : normAmount raw dec = 0 := by simpa using hz
        simp only [primaryStep, if_pos hz]
        rw [show (if ow = o then normAmount raw dec else 0) = 0 from by simp [hz']]
        rw [← ownerTotal]
        ring
      · simp only [primaryStep, if_neg hz]
        rw [mapAmount_accumOwner, ← ownerTotal]
        ring

theorem keys_sortHolders (l : List HolderAgg)
    (h : (l.map (fun h => h.owner)).Nodup) :
    ((sortHolders l).map (fun h => h.owner)).Nodup :=
  (List.Perm.nodup_iff ((sortHolders_perm l).map (fun h => h.owner))).mpr h

theorem holders_invariants (M : List HolderAgg)
    (hkeys : (M.map (fun h => h.owner)).Nodup)
    (hpos : ∀ h ∈ M, 0 < h.uiAmount) :
    ((sortHolders M).map (fun h => h.owner)).Nodup
    ∧ (∀ h ∈ sortHolders M, 0 < h.uiAmount)
    ∧ (sortHolders M).Pairwise (fun a b => b.uiAmount ≤ a.uiAmount) :=
  ⟨keys_sortHolders M hkeys,
   fun h hh => hpos h ((sortHolders_perm M).mem_iff.mp hh),
   sortHolders_sorted M⟩

theorem fallbackStep_shape (m : List HolderAgg) (v : LargestEntry)
    (info : Option ParsedProgramData) (hv : 0 ≤ v.uiAmount.getD 0) :
    fallbackStep m v info = m
    ∨ ∃ ow amt, 0 < amt ∧ fallbackStep m v info = accumOwner m ow amt := by
  by_cases hz : v.uiAmount.getD 0 == 0
  · exact Or.inl (by simp [fallbackStep, hz])
  · have hpos : 0 < v.uiAmount.getD 0 :=
      lt_of_le_of_ne hv (fun he => hz (by simp [← he]))
    cases info with
    | none => exact Or.inl (by simp [fallbackStep, hz])
    | some pd =>
      by_cases hp : pd.program != "spl-token"
      · exact Or.inl (by simp [fallbackStep, hz, hp])
      · exact Or.inr ⟨pd.owner, v.uiAmount.getD 0, hpos, by simp [fallbackStep, hz, hp]⟩

theorem keys_fallbackMap (values : List LargestEntry)
    (infos : List (Option ParsedProgramData)) :
    ((fallbackMap values infos).map (fun h => h.owner)).Nodup := by
  refine keys_foldl _ (values.zip infos) (fun m vi _ => ?_) [] (by simp)
  by_cases hz : vi.1.uiAmount.getD 0 == 0
  · exact Or.inl (by simp [fallbackStep, hz])
  · cases hinfo : vi.2 with
    | none => exact Or.inl (by simp [fallbackStep, hz])
    | some pd =>
      by_cases hp : pd.program != "spl-token"
      · exact Or.inl (by simp [fallbackStep, hz, hp])
      · exact Or.inr ⟨pd.owner, vi.1.uiAmount.getD 0, by simp [fallbackStep, hz, hp]⟩

theorem pos_fallbackMap (values : List LargestEntry)
    (infos : List (Option ParsedProgramData))
    (hnn : ∀ v ∈ values, 0 ≤ v.uiAmount.getD 0) :
    ∀ h ∈ fallbackMap values infos, 0 < h.uiAmount := by
  refine pos_foldl _ (values.zip infos) (fun m vi hvi => ?_) [] (by simp)
  exact fallbackStep_shape m vi.1 vi.2 (hnn vi.1 (List.of_mem_zip hvi).1)

theorem lookupAll_ok_forall (f : String → Except String (Option ParsedProgramData)) :
    ∀ (l : List String) (out : List (Option ParsedProgramData)),
      lookupAll f l = Except.ok out → ∀ a ∈ l, ∃ b, f a = Except.ok b := by
  intro l
  induction l with
  | nil => intro out _ a ha; simp at ha
  | cons pk rest ih =>
    intro out h a ha
    unfold lookupAll at h
    cases hf : f pk with
    | error e => rw [hf] at h; cases h
    | ok info =>
      rw [hf] at h
      dsimp only at h
      cases hrest : lookupAll f rest with
      | error e => rw [hrest] at h; cases h
      | ok infos =>
        rcases List.mem_cons.mp ha with rfl | hmem
        · exact ⟨info, hf⟩
        · exact ih infos hrest a hmem

theorem foldl_add_holders (l : List HolderAgg) (a : ℚ) :
    l.foldl (fun acc h => acc + h.uiAmount) a = a + holdersTotal l := by
  induction l generalizing a with
  | nil => simp [holdersTotal]
  | cons x t ih =>
    rw [List.foldl_cons, ih, holdersTotal, holdersTotal, List.map_cons, List.sum_cons]
    ring

theorem holdersTotal_nonneg (l : List HolderAgg) (hnn : ∀ h ∈ l, 0 ≤ h.uiAmount) :
    0 ≤ holdersTotal l := by
  apply List.sum_nonneg
  intro x hx
  rcases List.mem_map.mp hx with ⟨y, hy, rfl⟩
  exact hnn y hy

theorem holdersTotal_take_mono (l : List HolderAgg) (hnn : ∀ h ∈ l, 0 ≤ h.uiAmount)
    (km kn : Nat) (hmn : km ≤ kn) :
    holdersTotal (l.take km) ≤ holdersTotal (l.take kn) := by
  have hnk : kn = km + (kn - km) := by omega
  rw [hnk, List.take_add]
  simp only [holdersTotal, List.map_append, List.sum_append]
  have h2 : 0 ≤ (List.map (fun h => h.uiAmount) ((l.drop km).take (kn - km))).sum := by
    apply List.sum_nonneg
    intro x hx
    rcases List.mem_map.mp hx with ⟨y, hy, rfl⟩
    exact hnn y (List.drop_subset _ _ (List.take_subset _ _ hy))
  linarith

theorem holdersTotal_take_le (l : List HolderAgg) (hnn : ∀ h ∈ l, 0 ≤ h.uiAmount)
    (k : Nat) : holdersTotal (l.take k) ≤ holdersTotal l := by
  conv_rhs => rw [← List.take_append_drop k l]
  simp only [holdersTotal, List.map_append, List.sum_append]
  have h2 : 0 ≤ (List.map (fun h => h.uiAmount) (l.drop k)).sum := by
    apply List.sum_nonneg
    intro x hx
    rcases List.mem_map.mp hx with ⟨y, hy, rfl⟩
    exact hnn y (List.drop_subset _ _ hy)
  linarith

theorem pctOfSupply_eq (supply : ℚ) (holders : List HolderAgg) (k : Nat)
    (hs : 0 < supply) :
    pctOfSupply supply holders k = holdersTotal (holders.take k) / supply * 100 := by
  rw [pctOfSupply, if_neg (not_le.mpr hs), foldl_add_holders, zero_add]

/-! ## Claims C1 and C2: safety scorer -/

/-- Claim C1: for every SafetyScorer input (mint authority flags and a list of
qualifying pools), the risk level follows the first-match rule table with
thresholds veryLowLiquidity = total < 200 and lowLiquidity = total < 1000:
high if no qualifying pool, or veryLowLiquidity, or mintAuthority set; else
medium if lowLiquidity or freezeAuthority set; else low.  Concretely: no
authorities and one pool with liquidityUsd 5000 gives low; the same with
freezeAuthority set gives medium; the same with no pool gives high. -/
theorem c1_safety_rule :
    (∀ (ma fa : Option String) (pools : List DexPair),
        (computeSafety ma fa pools).riskLevel = specRiskLevel ma fa pools)
    ∧ (computeSafety none none
        [{ chainId := "solana", dexId := "raydium", pairAddress := "p",
           liquidityUsd := some 5000 }]).riskLevel = RiskLevel.low
    ∧ (computeSafety none (some "F")
        [{ chainId := "solana", dexId := "raydium", pairAddress := "p",
           liquidityUsd := some 5000 }]).riskLevel = RiskLevel.medium
    ∧ (computeSafety none none []).riskLevel = RiskLevel.high := by
  refine ⟨?_, ?_, ?_, ?_⟩
  · intro ma fa pools
    simp only [computeSafety, specRiskLevel]
    by_cases hemp : pools.isEmpty
    · cases ma <;> cases fa <;> simp [hemp]
    · by_cases h200 : totalLiquidityUsd pools < 200
      · cases ma <;> cases fa <;> simp [hemp, h200]
      · by_cases h1000 : totalLiquidityUsd pools < 1000
        · cases ma <;> cases fa <;> simp [hemp, h200, h1000]
        · cases ma <;> cases fa <;> simp [hemp, h200, h1000]
  · norm_num [computeSafety, totalLiquidityUsd]
  · norm_num [computeSafety, totalLiquidityUsd]
  · norm_num [computeSafety, totalLiquidityUsd]

/-- Claim C2 counterexample: in src/server.ts the claim fails.  With a mint
whose metadata lookup succeeded, a failing market-data (DexScreener)
retrieval propagates out of the handler (HTTP 500): the result is the error,
not a safety assessment, so the assessment is NOT still produced. -/
theorem c2_counterexample :
    tokenSafetyCheck
        { decimals := 9, supplyRaw := 1000000, mintAuthority := none,
          freezeAuthority := none, isInitialized := true }
        (Except.error "DexScreener error 502 for mint")
      = Except.error "DexScreener error 502 for mint" := rfl

/-- Claim C2 as amended: only in the best-effort variant of the handler
(src/unnamed/part_000) does a market-data failure degrade instead of
failing: the assessment is still produced over an empty pool set, the
no-qualifying-pool branch of rule 1 applies, and riskLevel is high. -/
theorem c2_best_effort_degrades (meta : MintInfo) (e : String) :
    tokenSafetyCheckBestEffort meta (Except.error e)
      = computeSafety meta.mintAuthority meta.freezeAuthority []
    ∧ (tokenSafetyCheckBestEffort meta (Except.error e)).hasRaydiumPool = false
    ∧ (tokenSafetyCheckBestEffort meta (Except.error e)).riskLevel = RiskLevel.high := by
  refine ⟨rfl, ?_, ?_⟩ <;>
    simp [tokenSafetyCheckBestEffort, computeSafety, raydiumFilter]


/-- Claim C3: the holder aggregation normalizes each amountRaw by
10^decimals, skips zero normalized amounts, and sums normalized amounts per
owner: the amount recorded for any owner equals the sum of the normalized
record amounts of that owner.  Concretely, owner X with raw amounts 100, 200,
300 at decimals 2 yields the single aggregate ⟨X, 6⟩, and a single
zero-amount record yields no aggregate at all. -/
theorem c3_aggregation_sum :
    (∀ (accounts : List AccountData) (o : String),
        mapAmount (primaryHolders accounts) o = ownerTotal accounts o)
    ∧ primaryHolders [.tokenAccount "X" 2 100, .tokenAccount "X" 2 200,
        .tokenAccount "X" 2 300] = [{ owner := "X", uiAmount := 6 }]
    ∧ primaryHolders [.tokenAccount "Z" 2 0] = [] := by
  refine ⟨?_, ?_, ?_⟩
  · intro accounts o
    rw [primaryHolders, mapAmount_sortHolders _ _ (keys_primaryMap accounts)]
    have h := mapAmount_primary_foldl accounts [] o
    rw [primaryMap]
    simpa [mapAmount] using h
  · have hmap : primaryMap [.tokenAccount "X" 2 100, .tokenAccount "X" 2 200,
        .tokenAccount "X" 2 300] = [{ owner := "X", uiAmount := 6 }] := by
      norm_num [primaryMap, primaryStep, accumOwner, normAmount]
    rw [primaryHolders, hmap]
    simp [sortHolders]
  · have hmap : primaryMap [.tokenAccount "Z" 2 0] = [] := by
      norm_num [primaryMap, primaryStep, normAmount]
    rw [primaryHolders, hmap]
    simp [sortHolders]

/-- Claim C6: every holder list produced by the aggregation has at most one
entry per distinct owner, every entry has uiAmount > 0 (given the
collaborator invariant that largest-accounts balances are nonnegative), and
the list is sorted descending by uiAmount; the sort is stable, so entries
with equal amounts keep the insertion order of the accumulated map. -/
theorem c6_invariants (env : ScanEnv)
    (hnn : ∀ values, env.largestResult = Except.ok values →
      ∀ v ∈ values, 0 ≤ v.uiAmount.getD 0)
    (r : AggResult) (hr : aggregateHoldersForMint env = Except.ok r) :
    ((r.holders.map (fun h => h.owner)).Nodup)
    ∧ (∀ h ∈ r.holders, 0 < h.uiAmount)
    ∧ r.holders.Pairwise (fun a b => b.uiAmount ≤ a.uiAmount)
    ∧ (∀ (l : List HolderAgg) (a b : HolderAgg), a.uiAmount = b.uiAmount →
        List.Sublist [a, b] l → List.Sublist [a, b] (sortHolders l)) := by
  have hstable : ∀ (l : List HolderAgg) (a b : HolderAgg), a.uiAmount = b.uiAmount →
      List.Sublist [a, b] l → List.Sublist [a, b] (sortHolders l) :=
    fun l a b hab h => sortHolders_stable l a b (le_of_eq hab.symm) h
  unfold aggregateHoldersForMint at hr
  cases hscan : env.scanResult with
  | ok accounts =>
    rw [hscan] at hr
    dsimp only at hr
    have hr' : r = ⟨primaryHolders accounts, false⟩ := by cases hr; rfl
    subst hr'
    obtain ⟨h1, h2, h3⟩ := holders_invariants (primaryMap accounts)
      (keys_primaryMap accounts) (pos_primaryMap accounts)
    exact ⟨h1, h2, h3, hstable⟩
  | error e =>
    rw [hscan] at hr
    dsimp only at hr
    by_cases habort : isScanAbortedError e
    · rw [if_neg (by simp [habort])] at hr
      unfold fallbackAggregate at hr
      cases hlarge : env.largestResult with
      | error e2 => rw [hlarge] at hr; cases hr
      | ok values =>
        rw [hlarge] at hr
        dsimp only at hr
        by_cases hemp : values.isEmpty
        · rw [if_pos hemp] at hr
          have hr' : r = ⟨[], true⟩ := by cases hr; rfl
          subst hr'
          exact ⟨by simp, by simp, by simp, hstable⟩
        · rw [if_neg hemp] at hr
          cases hlook : lookupAll env.lookup (values.map (fun v => v.address)) with
          | error e3 => rw [hlook] at hr; cases hr
          | ok infos =>
            rw [hlook] at hr
            have hr' : r = ⟨fallbackHolders values infos, true⟩ := by cases hr; rfl
            subst hr'
            obtain ⟨h1, h2, h3⟩ := holders_invariants (fallbackMap values infos)
              (keys_fallbackMap values infos)
              (pos_fallbackMap values infos (hnn values hlarge))
            exact ⟨h1, h2, h3, hstable⟩
    · rw [if_pos (by simp [habort])] at hr
      cases hr

/-- Witness for C6 at a concrete environment. -/
theorem c6_invariants_witness :
    (((primaryHolders [AccountData.tokenAccount "ownerA" 0 5]).map
        (fun h => h.owner)).Nodup)
    ∧ (∀ h ∈ primaryHolders [AccountData.tokenAccount "ownerA" 0 5], 0 < h.uiAmount)
    ∧ (primaryHolders [AccountData.tokenAccount "ownerA" 0 5]).Pairwise
        (fun a b => b.uiAmount ≤ a.uiAmount)
    ∧ (∀ (l : List HolderAgg) (a b : HolderAgg), a.uiAmount = b.uiAmount →
        List.Sublist [a, b] l → List.Sublist [a, b] (sortHolders l)) :=
  c6_invariants sampleEnvPrimary
    (by intro values hv v hmem; cases hv; simp at hmem)
    ⟨primaryHolders [AccountData.tokenAccount "ownerA" 0 5], false⟩ rfl

/-- Claim C4 counterexample: the claim fails as stated.  The list
[⟨A, 2⟩] is a genuine aggregated holder list (it is produced by the primary
aggregation from one record of 2 units at 0 decimals), yet against supply 1
the concentration top10 is 200, violating top10 ≤ 100: the code never checks
the aggregated total against the independently fetched supply. -/
theorem c4_counterexample :
    primaryHolders [AccountData.tokenAccount "A" 0 2] = [{ owner := "A", uiAmount := 2 }]
    ∧ ¬ ((concentrationOf 1 [{ owner := "A", uiAmount := 2 }]).top10 ≤ 100) := by
  constructor
  · have hmap : primaryMap [AccountData.tokenAccount "A" 0 2]
        = [{ owner := "A", uiAmount := 2 }] := by
      norm_num [primaryMap, primaryStep, accumOwner, normAmount]
    rw [primaryHolders, hmap]
    simp [sortHolders]
  · norm_num [concentrationOf, pctOfSupply, holdersTotal]

/-- Claim C4 as amended: with the extra hypothesis that the aggregated total
does not exceed the supply (amounts being nonnegative, as the aggregator
guarantees), supply > 0 gives 0 ≤ top1 ≤ top5 ≤ top10 ≤ 100; and for
supply ≤ 0 the concentration is exactly {top1 := 0, top5 := 0, top10 := 0}
and the whale list is empty for every threshold and limit. -/
theorem c4_amended (supply : ℚ) (holders : List HolderAgg)
    (hnn : ∀ h ∈ holders, 0 ≤ h.uiAmount) :
    (0 < supply → holdersTotal holders ≤ supply →
      (0 ≤ (concentrationOf supply holders).top1
        ∧ (concentrationOf supply holders).top1 ≤ (concentrationOf supply holders).top5
        ∧ (concentrationOf supply holders).top5 ≤ (concentrationOf supply holders).top10
        ∧ (concentrationOf supply holders).top10 ≤ 100))
    ∧ (supply ≤ 0 →
        concentrationOf supply holders = ⟨0, 0, 0⟩
        ∧ ∀ (minPct : ℚ) (limit : Nat), whaleFilter supply holders minPct limit = []) := by
  constructor
  · intro hs hle
    simp only [concentrationOf, pctOfSupply_eq supply holders _ hs]
    have h1 : 0 ≤ holdersTotal (holders.take 1) := by
      apply holdersTotal_nonneg
      intro y hy
      exact hnn y (List.take_subset _ _ hy)
    have h15 := holdersTotal_take_mono holders hnn 1 5 (by omega)
    have h510 := holdersTotal_take_mono holders hnn 5 10 (by omega)
    have h10 := holdersTotal_take_le holders hnn 10
    refine ⟨?_, ?_, ?_, ?_⟩
    · positivity
    · gcongr
    · gcongr
    · rw [div_mul_eq_mul_div, div_le_iff₀ hs]
      nlinarith
  · intro hle
    constructor
    · simp [concentrationOf, pctOfSupply, hle]
    · intro minPct limit
      simp [whaleFilter, hle, sortHolders]

/-- Witness for the amended C4 at concrete inputs. -/
theorem c4_amended_witness :
    (0 ≤ (concentrationOf 10 [{ owner := "A", uiAmount := 2 }]).top1
      ∧ (concentrationOf 10 [{ owner := "A", uiAmount := 2 }]).top1
          ≤ (concentrationOf 10 [{ owner := "A", uiAmount := 2 }]).top5
      ∧ (concentrationOf 10 [{ owner := "A", uiAmount := 2 }]).top5
          ≤ (concentrationOf 10 [{ owner := "A", uiAmount := 2 }]).top10
      ∧ (concentrationOf 10 [{ owner := "A", uiAmount := 2 }]).top10 ≤ 100)
    ∧ (concentrationOf (-3) [{ owner := "A", uiAmount := 2 }] = ⟨0, 0, 0⟩
      ∧ ∀ (minPct : ℚ) (limit : Nat),
          whaleFilter (-3) [{ owner := "A", uiAmount := 2 }] minPct limit = []) :=
  ⟨(c4_amended 10 [{ owner := "A", uiAmount := 2 }] (by norm_num)).1 (by norm_num)
      (by norm_num [holdersTotal]),
   (c4_amended (-3) [{ owner := "A", uiAmount := 2 }] (by norm_num)).2 (by norm_num)⟩

/-- Claim C8: given supply > 0, the whale selection equals the spec-worded
one — exactly the holders whose share uiAmount / supply × 100 is at least
the threshold, sorted descending, truncated to the limit; the default
threshold is 1 and the default limit is 20; and concretely, for supply
1000000 with A = 600000 and B = 400000, minPct 50 yields [A] and minPct 10
yields [A, B] in that order. -/
theorem c8_whales (supply minPct : ℚ) (holders : List HolderAgg) (limit : Nat)
    (hs : 0 < supply) :
    whaleFilter supply holders minPct limit = whalesSpec supply holders minPct limit
    ∧ whaleMinPctParam none = 1
    ∧ whaleLimitParam none = 20
    ∧ whaleFilter 1000000 [{ owner := "A", uiAmount := 600000 },
        { owner := "B", uiAmount := 400000 }] 50 20
      = [{ owner := "A", uiAmount := 600000 }]
    ∧ whaleFilter 1000000 [{ owner := "A", uiAmount := 600000 },
        { owner := "B", uiAmount := 400000 }] 10 20
      = [{ owner := "A", uiAmount := 600000 }, { owner := "B", uiAmount := 400000 }] := by
  refine ⟨?_, rfl, rfl, ?_, ?_⟩
  · have hpred : (fun h : HolderAgg =>
        if supply ≤ 0 then false else decide (minPct ≤ h.uiAmount / supply * 100))
        = (fun h : HolderAgg => decide (minPct ≤ h.uiAmount / supply * 100)) := by
      funext h
      rw [if_neg (not_le.mpr hs)]
    rw [whaleFilter, whalesSpec, hpred]
  · have hfil : List.filter (fun h : HolderAgg =>
        if (1000000:ℚ) ≤ 0 then false else decide ((50:ℚ) ≤ h.uiAmount / 1000000 * 100))
        [{ owner := "A", uiAmount := 600000 }, { owner := "B", uiAmount := 400000 }]
        = [{ owner := "A", uiAmount := 600000 }] := by
      norm_num [List.filter]
    rw [whaleFilter, hfil]
    simp [sortHolders]
  · have hfil : List.filter (fun h : HolderAgg =>
        if (1000000:ℚ) ≤ 0 then false else decide ((10:ℚ) ≤ h.uiAmount / 1000000 * 100))
        [{ owner := "A", uiAmount := 600000 }, { owner := "B", uiAmount := 400000 }]
        = [{ owner := "A", uiAmount := 600000 }, { owner := "B", uiAmount := 400000 }] := by
      norm_num [List.filter]
    rw [whaleFilter, hfil]
    have hsorted : List.Pairwise (fun a b => holderLE a b = true)
        [{ owner := "A", uiAmount := (600000:ℚ) }, { owner := "B", uiAmount := 400000 }] := by
      norm_num [holderLE]
    rw [sortHolders, List.mergeSort_of_sorted hsorted]
    rfl

/-- Witness for C8 at concrete inputs. -/
theorem c8_whales_witness :
    whaleFilter 1000000 [{ owner := "A", uiAmount := 600000 },
        { owner := "B", uiAmount := 400000 }] 50 20
      = [{ owner := "A", uiAmount := 600000 }]
    ∧ whaleFilter 2 [{ owner := "A", uiAmount := 1 }] 1 20
      = whalesSpec 2 [{ owner := "A", uiAmount := 1 }] 1 20 :=
  ⟨(c8_whales 1000000 50 [] 20 (by norm_num)).2.2.2.1,
   (c8_whales 2 1 [{ owner := "A", uiAmount := 1 }] 20 (by norm_num)).1⟩

/-- Claim C5: when the primary scan fails with a resource-limit rejection,
the result is computed by the fallback branch, which reads only the bounded
largest-accounts query and the per-account lookups, applies the same
per-owner summation to that bounded set, and carries usedFallback = true on
success; when the primary scan succeeds, usedFallback = false. -/
theorem c5_fallback_flag (env : ScanEnv) :
    (∀ accounts, env.scanResult = Except.ok accounts →
        aggregateHoldersForMint env = Except.ok ⟨primaryHolders accounts, false⟩)
    ∧ (∀ e, env.scanResult = Except.error e → isScanAbortedError e = true →
        aggregateHoldersForMint env = fallbackAggregate env.largestResult env.lookup)
    ∧ (∀ largestResult lookup r, fallbackAggregate largestResult lookup = Except.ok r →
        r.usedFallback = true)
    ∧ (∀ values infos, fallbackHolders values infos
        = sortHolders ((values.zip infos).foldl (fun m vi => fallbackStep m vi.1 vi.2) [])) := by
  refine ⟨?_, ?_, ?_, fun _ _ => rfl⟩
  · intro accounts hs
    unfold aggregateHoldersForMint
    rw [hs]
  · intro e hs habort
    unfold aggregateHoldersForMint
    rw [hs]
    dsimp only
    rw [if_neg (by simp [habort])]
  · intro largestResult lookup r hr
    unfold fallbackAggregate at hr
    cases largestResult with
    | error e => cases hr
    | ok values =>
      dsimp only at hr
      by_cases hemp : values.isEmpty
      · rw [if_pos hemp] at hr
        cases hr; rfl
      · rw [if_neg hemp] at hr
        cases hlook : lookupAll lookup (values.map (fun v => v.address)) with
        | error e => rw [hlook] at hr; cases hr
        | ok infos => rw [hlook] at hr; cases hr; rfl

/-- Witness for C5 at concrete environments. -/
theorem c5_fallback_flag_witness :
    aggregateHoldersForMint sampleEnvPrimary
      = Except.ok ⟨primaryHolders [AccountData.tokenAccount "ownerA" 0 5], false⟩
    ∧ aggregateHoldersForMint sampleEnvFallback
      = fallbackAggregate sampleEnvFallback.largestResult sampleEnvFallback.lookup :=
  ⟨(c5_fallback_flag sampleEnvPrimary).1 _ rfl,
   (c5_fallback_flag sampleEnvFallback).2.1 "Scan aborted: too many results" rfl (by decide)⟩

/-- Claim C9: the holder aggregation is deterministic — two runs over equal
collaborator snapshots (same scan outcome, hence same fallback decision,
same largest-accounts list and lookups) produce identical results, holder
order, amounts and usedFallback flag included. -/
theorem c9_deterministic (env₁ env₂ : ScanEnv) (h : env₁ = env₂) :
    aggregateHoldersForMint env₁ = aggregateHoldersForMint env₂ := by
  rw [h]

/-- Witness for C9 at a concrete environment. -/
theorem c9_deterministic_witness :
    aggregateHoldersForMint sampleEnvFallback = aggregateHoldersForMint sampleEnvFallback :=
  c9_deterministic sampleEnvFallback sampleEnvFallback rfl

/-- Claim C7: the aggregation fails exactly when the primary scan fails with
a non-resource-limit error (re-raised unchanged), or, in the fallback path,
the largest-accounts query fails or one of the owner-resolution lookups
fails; in every other case it returns a holder list, and whenever it
succeeds in the fallback path every single lookup had succeeded, so no
partial degraded list is ever synthesized. -/
theorem c7_error_propagation (env : ScanEnv) :
    (∀ e, env.scanResult = Except.error e → isScanAbortedError e = false →
        aggregateHoldersForMint env = Except.error e)
    ∧ (∀ e e2, env.scanResult = Except.error e → isScanAbortedError e = true →
        env.largestResult = Except.error e2 →
        aggregateHoldersForMint env = Except.error e2)
    ∧ (∀ e values e3, env.scanResult = Except.error e → isScanAbortedError e = true →
        env.largestResult = Except.ok values →
        lookupAll env.lookup (values.map (fun v => v.address)) = Except.error e3 →
        aggregateHoldersForMint env = Except.error e3)
    ∧ (∀ accounts, env.scanResult = Except.ok accounts →
        ∃ r, aggregateHoldersForMint env = Except.ok r)
    ∧ (∀ e values infos, env.scanResult = Except.error e → isScanAbortedError e = true →
        env.largestResult = Except.ok values →
        lookupAll env.lookup (values.map (fun v => v.address)) = Except.ok infos →
        ∃ r, aggregateHoldersForMint env = Except.ok r)
    ∧ (∀ e values r, env.scanResult = Except.error e →
        env.largestResult = Except.ok values →
        aggregateHoldersForMint env = Except.ok r →
        ∀ a ∈ values.map (fun v => v.address), ∃ b, env.lookup a = Except.ok b) := by
  refine ⟨?_, ?_, ?_, ?_, ?_, ?_⟩
  · intro e hs habort
    unfold aggregateHoldersForMint
    rw [hs]
    dsimp only
    rw [if_pos (by simp [habort])]
  · intro e e2 hs habort hl
    unfold aggregateHoldersForMint
    rw [hs]
    dsimp only
    rw [if_neg (by simp [habort])]
    unfold fallbackAggregate
    rw [hl]
  · intro e values e3 hs habort hl hlook
    unfold aggregateHoldersForMint
    rw [hs]
    dsimp only
    rw [if_neg (by simp [habort])]
    unfold fallbackAggregate
    rw [hl]
    dsimp only
    by_cases hemp : values.isEmpty
    · exfalso
      have : values = [] := List.isEmpty_iff.mp hemp
      subst this
      simp [lookupAll] at hlook
    · rw [if_neg hemp, hlook]
  · intro accounts hs
    refine ⟨⟨primaryHolders accounts, false⟩, ?_⟩
    unfold aggregateHoldersForMint
    rw [hs]
  · intro e values infos hs habort hl hlook
    unfold aggregateHoldersForMint
    rw [hs]
    dsimp only
    rw [if_neg (by simp [habort])]
    unfold fallbackAggregate
    rw [hl]
    dsimp only
    by_cases hemp : values.isEmpty
    · exact ⟨⟨[], true⟩, by rw [if_pos hemp]⟩
    · exact ⟨⟨fallbackHolders values infos, true⟩, by rw [if_neg hemp, hlook]⟩
  · intro e values r hs hl hr a ha
    unfold aggregateHoldersForMint at hr
    rw [hs] at hr
    dsimp only at hr
    by_cases habort : isScanAbortedError e
    · rw [if_neg (by simp [habort])] at hr
      unfold fallbackAggregate at hr
      rw [hl] at hr
      dsimp only at hr
      by_cases hemp : values.isEmpty
      · exfalso
        have : values = [] := List.isEmpty_iff.mp hemp
        subst this
        simp at ha
      · rw [if_neg hemp] at hr
        cases hlook : lookupAll env.lookup (values.map (fun v => v.address)) with
        | error e3 => rw [hlook] at hr; cases hr
        | ok infos => exact lookupAll_ok_forall env.lookup _ infos hlook a ha
    · rw [if_pos (by simp [habort])] at hr
      cases hr

/-- Witness for C7 at concrete environments. -/
theorem c7_error_propagation_witness :
    aggregateHoldersForMint sampleEnvTransport = Except.error "connection reset"
    ∧ aggregateHoldersForMint sampleEnvLookupFail = Except.error "lookup failed" :=
  ⟨(c7_error_propagation sampleEnvTransport).1 "connection reset" rfl (by decide),
   (c7_error_propagation sampleEnvLookupFail).2.2.1 "Scan aborted: too many results"
     [{ address := "acc1", uiAmount := some 5 }] "lookup failed" rfl (by decide) rfl rfl⟩

/-- Claim C10: in the fallback path, an entry whose lookup returned no
account data, or data that is not an spl-token account, or whose normalized
amount is zero or missing, is silently skipped and contributes nothing,
while the remaining entries are aggregated normally and the aggregation
still succeeds. -/
theorem c10_fallback_skips (m : List HolderAgg) (v : LargestEntry)
    (info : Option ParsedProgramData) (vs : List LargestEntry)
    (infos : List (Option ParsedProgramData)) :
    (v.uiAmount.getD 0 = 0 → fallbackStep m v info = m)
    ∧ fallbackStep m v none = m
    ∧ (∀ pd, info = some pd → pd.program ≠ "spl-token" → fallbackStep m v info = m)
    ∧ ((v.uiAmount.getD 0 = 0 ∨ info = none ∨
          (∃ pd, info = some pd ∧ pd.program ≠ "spl-token")) →
        fallbackHolders (v :: vs) (info :: infos) = fallbackHolders vs infos)
    ∧ (∀ env e values infos₂, env.scanResult = Except.error e →
        isScanAbortedError e = true → env.largestResult = Except.ok values →
        lookupAll env.lookup (values.map (fun w => w.address)) = Except.ok infos₂ →
        aggregateHoldersForMint env = Except.ok ⟨fallbackHolders values infos₂, true⟩) := by
  have hskip0 : ∀ (m' : List HolderAgg), v.uiAmount.getD 0 = 0 →
      fallbackStep m' v info = m' := by
    intro m' hz
    simp [fallbackStep, hz]
  have hskipNone : ∀ (m' : List HolderAgg), fallbackStep m' v none = m' := by
    intro m'
    by_cases hz : v.uiAmount.getD 0 == 0 <;> simp [fallbackStep, hz]
  have hskipProg : ∀ (m' : List HolderAgg) pd, info = some pd →
      pd.program ≠ "spl-token" → fallbackStep m' v info = m' := by
    intro m' pd hi hp
    subst hi
    by_cases hz : v.uiAmount.getD 0 == 0 <;> simp [fallbackStep, hz, hp]
  refine ⟨hskip0 m, hskipNone m, hskipProg m, ?_, ?_⟩
  · intro hcase
    unfold fallbackHolders fallbackMap
    rw [List.zip_cons_cons, List.foldl_cons]
    rcases hcase with hz | hi | ⟨pd, hi, hp⟩
    · rw [hskip0 [] hz]
    · subst hi; rw [hskipNone []]
    · rw [hskipProg [] pd hi hp]
  · intro env e values infos₂ hs habort hl hlook
    unfold aggregateHoldersForMint
    rw [hs]
    dsimp only
    rw [if_neg (by simp [habort])]
    unfold fallbackAggregate
    rw [hl]
    dsimp only
    by_cases hemp : values.isEmpty
    · rw [if_pos hemp]
      have hv : values = [] := List.isEmpty_iff.mp hemp
      subst hv
      have hi : infos₂ = [] := by
        simpa [lookupAll] using hlook.symm
      subst hi
      simp [fallbackHolders, fallbackMap, sortHolders]
    · rw [if_neg hemp, hlook]

/-- Witness for C10 at concrete inputs. -/
theorem c10_fallback_skips_witness :
    fallbackStep [] { address := "a0", uiAmount := none }
        (some { program := "spl-token", owner := "o0" }) = []
    ∧ fallbackStep [] { address := "a1", uiAmount := some 7 }
        (some { program := "system", owner := "o1" }) = []
    ∧ fallbackHolders
        [{ address := "a1", uiAmount := some 7 }, { address := "acc1", uiAmount := some 5 }]
        [some { program := "system", owner := "o1" },
         some { program := "spl-token", owner := "ownerA" }]
      = fallbackHolders [{ address := "acc1", uiAmount := some 5 }]
          [some { program := "spl-token", owner := "ownerA" }]
    ∧ aggregateHoldersForMint sampleEnvFallback
      = Except.ok ⟨fallbackHolders [{ address := "acc1", uiAmount := some 5 }]
          [some { program := "spl-token", owner := "ownerA" }], true⟩ := by
  refine ⟨?_, ?_, ?_, ?_⟩
  · exact (c10_fallback_skips [] { address := "a0", uiAmount := none }
      (some { program := "spl-token", owner := "o0" }) [] []).1 rfl
  · exact (c10_fallback_skips [] { address := "a1", uiAmount := some 7 }
      (some { program := "system", owner := "o1" }) [] []).2.2.1
      { program := "system", owner := "o1" } rfl (by decide)
  · exact (c10_fallback_skips [] { address := "a1", uiAmount := some 7 }
      (some { program := "system", owner := "o1" })
      [{ address := "acc1", uiAmount := some 5 }]
      [some { program := "spl-token", owner := "ownerA" }]).2.2.2.1
      (Or.inr (Or.inr ⟨{ program := "system", owner := "o1" }, rfl, by decide⟩))
  · exact (c10_fallback_skips [] { address := "a0", uiAmount := none } none [] []).2.2.2.2
      sampleEnvFallback "Scan aborted: too many results"
      [{ address := "acc1", uiAmount := some 5 }]
      [some { program := "spl-token", owner := "ownerA" }] rfl (by decide) rfl rfl

end SolanaTools
